import Mathlib

/-!
Shallow embedding of `src/LATimesScrapper.py` (class `LatimesScraper`).

The embedding models, faithfully to the Python source:
* the calendar values produced by `datetime.datetime` (year, month, day;
  construction fails outside Python's validity range);
* the date-normalization logic of `_extract_data` lines 159-167
  (period stripping, the "ago" substring test, and the two `strptime`
  formats "%B %d, %Y" and "%b %d, %Y");
* the pagination loop of `_extract_data` lines 146-198, with the browser
  waits represented as boolean availability flags on each result page and
  every caught exception collapsing to `none` (the Python function body is
  wrapped in a `try`/`except` that logs and falls through, returning `None`);
* the enrichment step `_add_columns` (pandas `str.count` on the lowered
  title/description for a literal search phrase, and `re.search` of the
  money pattern on title ++ " " ++ description);
* the `try`/`except`/`finally` structure of `scrape`.

Machine-level detail that the claims do not touch (actual CSS selectors,
the Excel writer, logging text) is abstracted, but every branch that
decides control flow in the claims is present.
-/

/-- Calendar timestamp at day granularity, mirroring the fields of a Python
`datetime.datetime` that the scraper ever compares.  `datetime.today()` also
carries a time of day, but in `_extract_data` the only comparisons are
`date < date_min` where `date_min` has time 00:00 and every other compared
value is either a midnight timestamp from `strptime` or `today` itself, so
truncating the time of day never changes any comparison the code makes. -/
structure Datetime where
  year : Int
  month : Int
  day : Int
deriving DecidableEq, Repr

/-- Python `datetime` comparison (lexicographic on year, month, day). -/
def dtLt (a b : Datetime) : Bool :=
  if a.year < b.year then true
  else if b.year < a.year then false
  else if a.month < b.month then true
  else if b.month < a.month then false
  else decide (a.day < b.day)

/-- Gregorian leap-year rule used by Python's `datetime`. -/
def isLeapYear (y : Int) : Bool :=
  (y % 4 = 0 && !(y % 100 = 0)) || y % 400 = 0

/-- Number of days in a month, as enforced by the `datetime` constructor. -/
def daysInMonth (y m : Int) : Int :=
  if m = 2 then (if isLeapYear y then 29 else 28)
  else if m = 4 || m = 6 || m = 9 || m = 11 then 30
  else 31

/-- `datetime.datetime(y, m, d)`: `some` on Python's validity range
(`MINYEAR = 1`, `MAXYEAR = 9999`, month 1..12, day within the month),
`none` when the constructor would raise `ValueError`. -/
def mkDatetime (y m d : Int) : Option Datetime :=
  if 1 ≤ y ∧ y ≤ 9999 ∧ 1 ≤ m ∧ m ≤ 12 ∧ 1 ≤ d ∧ d ≤ daysInMonth y m then
    some ⟨y, m, d⟩
  else none

/-- A `Datetime` value that the Python constructor accepts (what
`datetime.today()` always returns). -/
def validDt (t : Datetime) : Bool :=
  mkDatetime t.year t.month t.day == some t

/-- Line 148 of the source:
`date_min = dt.datetime(today.year, today.month - months_back, 1)`. -/
def dateMin (monthsBack : Int) (today : Datetime) : Option Datetime :=
  mkDatetime today.year (today.month - monthsBack) 1

/-- The six characters Python's regex `\s` matches in the formats used here. -/
def isSpaceChar (c : Char) : Bool :=
  c = ' ' || c = '\t' || c = '\n' || c = '\r' || c = Char.ofNat 11 || c = Char.ofNat 12

/-- Numeric value of a decimal digit character. -/
def digitVal (c : Char) : Int :=
  Int.ofNat (c.toNat - '0'.toNat)

/-- `date.replace('.', '')` (line 160): remove every period character. -/
def stripPeriods (l : List Char) : List Char :=
  l.filter (fun c => !(c = '.'))

/-- The characters of the literal `'ago'`. -/
def agoChars : List Char := ['a', 'g', 'o']

/-- Python's `'ago' in date` substring test (line 161). -/
def hasAgoSub (l : List Char) : Bool :=
  (List.tails l).any (fun t => agoChars.isPrefixOf t)

/-- Case-insensitive removal of the pattern `pat` (given lowercase) from the
front of the input, as Python's `strptime` month regex does under
`re.IGNORECASE`; returns the remaining input on success. -/
def stripStartCI : List Char → List Char → Option (List Char)
  | [], l => some l
  | _ :: _, [] => none
  | p :: ps, c :: cs => if c.toLower = p then stripStartCI ps cs else none

/-- Full month names recognized by `%B` in the C locale, with their numbers. -/
def monthsFull : List (List Char × Int) :=
  [("january".data, 1), ("february".data, 2), ("march".data, 3),
   ("april".data, 4), ("may".data, 5), ("june".data, 6), ("july".data, 7),
   ("august".data, 8), ("september".data, 9), ("october".data, 10),
   ("november".data, 11), ("december".data, 12)]

/-- Abbreviated month names recognized by `%b` in the C locale. -/
def monthsAbbr : List (List Char × Int) :=
  [("jan".data, 1), ("feb".data, 2), ("mar".data, 3), ("apr".data, 4),
   ("may".data, 5), ("jun".data, 6), ("jul".data, 7), ("aug".data, 8),
   ("sep".data, 9), ("oct".data, 10), ("nov".data, 11), ("dec".data, 12)]

/-- Try each month name of the table as a case-insensitive head of the
input.  No table name is a proper head of another, so at most one entry can
match and the try-in-order strategy coincides with the regex alternation
built by Python's `_strptime`. -/
def matchMonth : List (List Char × Int) → List Char → Option (Int × List Char)
  | [], _ => none
  | (nm, v) :: rest, l =>
    match stripStartCI nm l with
    | some r => some (v, r)
    | none => matchMonth rest l

/-- Drop any further whitespace (the `*` part of the `\s+` that a literal
space in a `strptime` format compiles to). -/
def dropWsMore : List Char → List Char
  | [] => []
  | c :: rest => if isSpaceChar c then dropWsMore rest else c :: rest

/-- Consume one-or-more whitespace characters (`\s+`); `none` if the input
does not start with whitespace.  The characters that may legally follow in
the formats used are never whitespace, so consuming greedily is exact. -/
def dropWsPlus : List Char → Option (List Char)
  | [] => none
  | c :: rest => if isSpaceChar c then some (dropWsMore rest) else none

/-- The day-of-month regex `%d` compiles to, `3[01]|[12]\d|0[1-9]|[1-9]`:
a two-digit value 01..31 when possible, otherwise a single digit 1..9.
In the formats used, the character after the day is a comma, so the regex
backtracking from the two-digit to the one-digit branch can never succeed
where this direct reading fails. -/
def parseDayChars : List Char → Option (Int × List Char)
  | [] => none
  | [c] =>
    if c.isDigit && decide (1 ≤ digitVal c) then some (digitVal c, []) else none
  | c1 :: c2 :: rest =>
    if c1.isDigit && c2.isDigit
        && decide (1 ≤ digitVal c1 * 10 + digitVal c2)
        && decide (digitVal c1 * 10 + digitVal c2 ≤ 31) then
      some (digitVal c1 * 10 + digitVal c2, rest)
    else if c1.isDigit && decide (1 ≤ digitVal c1) then
      some (digitVal c1, c2 :: rest)
    else none

/-- `datetime.strptime(input, "<month> %d, %Y")` for a given month table:
month name, one-or-more whitespace, day, literal comma, one-or-more
whitespace, exactly four digits of year, end of input; then the `datetime`
constructor validates the triple. -/
def parseWithTable (table : List (List Char × Int)) (l : List Char) : Option Datetime :=
  match matchMonth table l with
  | none => none
  | some (m, r1) =>
    match dropWsPlus r1 with
    | none => none
    | some r2 =>
      match parseDayChars r2 with
      | none => none
      | some (d, r3) =>
        match r3 with
        | ',' :: r4 =>
          match dropWsPlus r4 with
          | none => none
          | some r5 =>
            match r5 with
            | [a, b, c, e] =>
              if a.isDigit && b.isDigit && c.isDigit && e.isDigit then
                mkDatetime (digitVal a * 1000 + digitVal b * 100
                  + digitVal c * 10 + digitVal e) m d
              else none
            | _ => none
        | _ => none

/-- Line 165: `dt.datetime.strptime(date, "%B %d, %Y")` as an option. -/
def parseLongDate (l : List Char) : Option Datetime :=
  parseWithTable monthsFull l

/-- Line 167: `dt.datetime.strptime(date, "%b %d, %Y")` as an option. -/
def parseAbbrevDate (l : List Char) : Option Datetime :=
  parseWithTable monthsAbbr l

/-- Lines 159-167 of `_extract_data`: strip periods, then an `'ago' in date`
test resolving to `today`, then long-form parsing with abbreviated-form
fallback; `none` is the un-handled `ValueError` of the second `strptime`. -/
def normalizeDate (raw : String) (today : Datetime) : Option Datetime :=
  let d := stripPeriods raw.data
  if hasAgoSub d then some today
  else
    match parseLongDate d with
    | some t => some t
    | none => parseAbbrevDate d

/-- The date normalization in the order claim C4 words it: the "ago" test on
the raw text first, and the period stripping only on the otherwise-branch
before parsing.  Written from the claim's sentence, to be compared with
`normalizeDate`, which follows the source order (strip first, then test). -/
def normalizeSpecC4 (raw : String) (today : Datetime) : Option Datetime :=
  if hasAgoSub raw.data then some today
  else
    let d := stripPeriods raw.data
    match parseLongDate d with
    | some t => some t
    | none => parseAbbrevDate d

/-- One `li` node of a results page.  Each field is the text the
corresponding `find_element(...)` call would yield; `none` means that call
raises (element absent), which the surrounding `try` turns into an aborted
run. -/
structure Entry where
  rawDate : Option String
  title : Option String
  description : Option String
  picture : Option String
deriving DecidableEq, Repr

/-- One result page as the browser presents it to the loop body.
`entriesOk` is whether the wait for `.search-results-module-results-menu li`
succeeds (line 154); `nextOk` is whether the next-page control is clickable
and the subsequent page-load wait succeeds (lines 188-192). -/
structure Page where
  entriesOk : Bool
  entries : List Entry
  nextOk : Bool
deriving DecidableEq, Repr

/-- The four accumulator lists `date_ls, title_ls, description_ls,
picture_ls` of `_extract_data`; the returned `pd.DataFrame` is built from
exactly these lists, so the same structure serves as the result. -/
structure Frame where
  dateCol : List Datetime
  titleCol : List String
  descCol : List String
  picCol : List String
deriving DecidableEq, Repr

/-- The empty accumulator of line 149. -/
def emptyFrame : Frame := ⟨[], [], [], []⟩

/-- Append one fully extracted entry to all four accumulator lists. -/
def pushRecord (st : Frame) (r : Datetime × String × String × String) : Frame :=
  ⟨st.dateCol ++ [r.1], st.titleCol ++ [r.2.1],
   st.descCol ++ [r.2.2.1], st.picCol ++ [r.2.2.2]⟩

/-- Fold a list of extracted records into the accumulator. -/
def pushRecords (st : Frame) (rs : List (Datetime × String × String × String)) : Frame :=
  rs.foldl pushRecord st

/-- The record an entry yields when every field extraction and the date
normalization succeed. -/
def entryRecord (today : Datetime) (e : Entry) : Option (Datetime × String × String × String) :=
  match e.rawDate with
  | none => none
  | some raw =>
    match normalizeDate raw today with
    | none => none
    | some d =>
      match e.title with
      | none => none
      | some t =>
        match e.description with
        | none => none
        | some ds =>
          match e.picture with
          | none => none
          | some pic => some (d, t, ds, pic)

/-- An entry that extracts completely and whose normalized date is not
strictly below the cutoff (so the loop appends it and continues). -/
def goodEntryB (cutoff today : Datetime) (e : Entry) : Bool :=
  match entryRecord today e with
  | some r => !(dtLt r.1 cutoff)
  | none => false

/-- A page on which both browser waits succeed and every entry is good. -/
def goodPageB (cutoff today : Datetime) (p : Page) : Bool :=
  p.entriesOk && p.nextOk && p.entries.all (goodEntryB cutoff today)

/-- Outcome of the inner `for li in li_elements` loop (lines 157-185). -/
inductive StepRes where
  | cont (st : Frame)
  | early (f : Frame)
  | err
deriving DecidableEq, Repr

/-- The inner loop body: per entry, extract and normalize the date
(lines 159-167; failure raises), return the current accumulator as the
result if the date is strictly below the cutoff (lines 170-172), otherwise
append date, title, description, picture (lines 173-185; a missing field
raises). -/
def processEntries (cutoff today : Datetime) : List Entry → Frame → StepRes
  | [], st => StepRes.cont st
  | e :: rest, st =>
    match e.rawDate with
    | none => StepRes.err
    | some raw =>
      match normalizeDate raw today with
      | none => StepRes.err
      | some d =>
        if dtLt d cutoff then StepRes.early st
        else
          match e.title with
          | none => StepRes.err
          | some t =>
            match e.description with
            | none => StepRes.err
            | some ds =>
              match e.picture with
              | none => StepRes.err
              | some pic =>
                processEntries cutoff today rest (pushRecord st (d, t, ds, pic))

/-- The `for _ in range(9)` loop (lines 153-192) plus the fall-through
return of line 194.  Fuel `9` mirrors `range(9)`; an exhausted page stream
means the wait for entries times out; after every page, the 9th included,
the next-page control must be clickable (lines 188-192) or the raised
timeout aborts the run.  `none` is the exception path: the `except` of
lines 196-198 logs and lets the function return `None`. -/
def extractLoop (cutoff today : Datetime) : Nat → List Page → Frame → Option Frame
  | 0, _, st => some st
  | _ + 1, [], _ => none
  | n + 1, p :: rest, st =>
    if p.entriesOk then
      match processEntries cutoff today p.entries st with
      | StepRes.err => none
      | StepRes.early f => some f
      | StepRes.cont st' =>
        if p.nextOk then extractLoop cutoff today n rest st' else none
    else none

/-- `_extract_data(months_back)` (lines 132-198): compute the cutoff
(line 148; an invalid month raises and the run aborts), then run the
bounded pagination loop; `none` is the Python `None` that the `except`
branch lets the function return. -/
def extractData (pages : List Page) (monthsBack : Int) (today : Datetime) : Option Frame :=
  match dateMin monthsBack today with
  | none => none
  | some cutoff => extractLoop cutoff today 9 pages emptyFrame

/-- Non-overlapping left-to-right counting of a non-empty needle: at each
position either we are still skipping over the tail of the previous match
(`skip` positive), or we test for a match here; a match at a position makes
the scan resume after its last character.  Written with the explicit `skip`
counter so the recursion is structural on the text. -/
def countOccAux (needle : List Char) : Nat → List Char → Nat
  | _, [] => 0
  | Nat.succ s, _ :: rest => countOccAux needle s rest
  | 0, c :: rest =>
    if needle.isPrefixOf (c :: rest) ∧ needle ≠ [] then
      1 + countOccAux needle (needle.length - 1) rest
    else
      countOccAux needle 0 rest

/-- Non-overlapping left-to-right count of a non-empty needle in a list,
the number of matches pandas `Series.str.count` finds for a pattern with no
regex metacharacters. -/
def countOccList (needle : List Char) (hay : List Char) : Nat :=
  countOccAux needle 0 hay

/-- The naive case-blind substring count the spec describes: the empty
needle matches once at every position including the end, any other needle
is counted non-overlapping left to right.  This is the value
`series.str.count(pat)` computes exactly when `pat` contains no regular
expression metacharacter (proved below); for other patterns see
`pyStrCount`. -/
def strCount (s pat : List Char) : Nat :=
  if pat = [] then s.length + 1 else countOccList pat s

/-- The characters Python's `re` treats as metacharacters in a pattern. -/
def isReMeta (c : Char) : Bool :=
  c = '.' || c = '^' || c = '$' || c = '*' || c = '+' || c = '?' ||
  c = Char.ofNat 123 || c = Char.ofNat 125 || c = '[' || c = ']' ||
  c = '\\' || c = '|' || c = '(' || c = ')'

/-- One token of the literal-plus-dot fragment of Python regular
expressions: an ordinary character matches itself, `.` matches any single
character except a newline. -/
inductive ReTok where
  | lit (c : Char)
  | dot
deriving DecidableEq, Repr

/-- `re.compile` restricted to the literal-plus-dot fragment: ordinary
characters become literal tokens and `.` becomes the any-character token.
A pattern using any other metacharacter construct (anchor, repetition,
class, escape, group, alternation) is outside the fragment this embedding
models and yields `none`. -/
def compileDotLit : List Char → Option (List ReTok)
  | [] => some []
  | c :: rest =>
    match compileDotLit rest with
    | none => none
    | some toks =>
      if c = '.' then some (ReTok.dot :: toks)
      else if isReMeta c then none
      else some (ReTok.lit c :: toks)

/-- Whether one token matches one character. -/
def tokMatches (t : ReTok) (c : Char) : Bool :=
  match t with
  | ReTok.lit l => c = l
  | ReTok.dot => !(c = Char.ofNat 10)

/-- Match the whole token list as a head of the input, returning the
remaining input.  Every match of this fragment has exactly the pattern's
length, so matching is deterministic — no backtracking choices exist. -/
def matchToksAt : List ReTok → List Char → Option (List Char)
  | [], s => some s
  | _ :: _, [] => none
  | t :: ts, c :: rest => if tokMatches t c then matchToksAt ts rest else none

/-- Non-overlapping left-to-right counting of matches of a non-empty
compiled pattern, as the `re`-based scan behind `Series.str.count` does:
try the pattern at each position and resume after a match; the `skip`
counter carries the remaining length of the current match so the recursion
is structural on the text. -/
def reTokCountAux (toks : List ReTok) : Nat → List Char → Nat
  | _, [] => 0
  | Nat.succ k, _ :: rest => reTokCountAux toks k rest
  | 0, c :: rest =>
    match matchToksAt toks (c :: rest) with
    | some _ => 1 + reTokCountAux toks (toks.length - 1) rest
    | none => reTokCountAux toks 0 rest

/-- Count of matches of a compiled pattern: the empty pattern matches at
every position including the end. -/
def reTokCount (toks : List ReTok) (s : List Char) : Nat :=
  if toks = [] then s.length + 1 else reTokCountAux toks 0 s

/-- `series.str.count(pat)` for one cell: the pattern is compiled as a
regular expression and its non-overlapping matches are counted.  `some`
when the pattern lies in the literal-plus-dot fragment modeled here,
`none` when it uses regex constructs outside the fragment (among them
`"("`, on which the program raises `re.error`). -/
def pyStrCount (s pat : List Char) : Option Nat :=
  match compileDotLit pat with
  | some toks => some (reTokCount toks s)
  | none => none

/-- Python `str.lower()` on the character lists involved (ASCII data). -/
def lowerL (l : List Char) : List Char :=
  l.map Char.toLower

/-- `\d` of the money regex. -/
def isDigitChar (c : Char) : Bool := c.isDigit

/-- The characters of the literal alternative `dollars`. -/
def dollarsWord : List Char := "dollars".data

/-- The characters of the literal alternative `USD`. -/
def usdWord : List Char := "USD".data

/-- The trailing `(dollars|USD)` of the money regex, matched as a head of
the remaining input (a `re.search` match needs no end anchor). -/
def wordAt (l : List Char) : Bool :=
  dollarsWord.isPrefixOf l || usdWord.isPrefixOf l

/-- `\s?(dollars|USD)` matched as a head of the remaining input. -/
def wsWordAt (l : List Char) : Bool :=
  wordAt l ||
    (match l with
     | c :: rest => isSpaceChar c && wordAt rest
     | [] => false)

/-- After the comma of `(?:,\d+)?`: one-or-more digits, then
`\s?(dollars|USD)`; the disjunction at each step is the regex backtracking
over how many digits `\d+` consumes. -/
def afterCommaDigits : List Char → Bool
  | [] => false
  | c :: rest => isDigitChar c && (wsWordAt rest || afterCommaDigits rest)

/-- Continuation of the second alternative after its first digit:
`\d*(?:,\d+)?\s?(dollars|USD)` matched as a head of the remaining input,
with backtracking over the remaining digits of `\d+`. -/
def numContAt : List Char → Bool
  | [] => false
  | c :: rest =>
    wsWordAt (c :: rest) ||
      (c = ',' && afterCommaDigits rest) ||
      (isDigitChar c && numContAt rest)

/-- The alternative `\d+(?:,\d+)?\s?(dollars|USD)` matched as a head of the
remaining input. -/
def numAt : List Char → Bool
  | [] => false
  | c :: rest => isDigitChar c && numContAt rest

/-- The alternative `\$\d+(?:\.\d+)?` matched as a head of the remaining
input: a dollar sign followed by a digit suffices, because `\d+` may stop
after one digit and the decimal group may match empty, and a `re.search`
match needs nothing after them. -/
def dollarAt : List Char → Bool
  | '$' :: c :: _ => isDigitChar c
  | _ => false

/-- `re.search(r"\$\d+(?:\.\d+)?|\d+(?:,\d+)?\s?(dollars|USD)", s)` as a
boolean: some start position (a tail of the input) matches one of the two
alternatives. -/
def moneySearch (s : List Char) : Bool :=
  (List.tails s).any (fun t => dollarAt t || numAt t)

/-- The claim's description of a currency mention, written from its words:
the text contains either a dollar-sign-prefixed number, or a number
followed — directly or after a single whitespace character — by the word
`dollars` or `USD`. -/
def SpecCurrency (s : List Char) : Prop :=
  (∃ pre d post, s = pre ++ '$' :: d :: post ∧ isDigitChar d = true) ∨
  (∃ pre num sep w post,
      num ≠ [] ∧ (∀ c ∈ num, isDigitChar c = true) ∧
      (sep = [] ∨ ∃ c, sep = [c] ∧ isSpaceChar c = true) ∧
      (w = dollarsWord ∨ w = usdWord) ∧
      s = pre ++ num ++ sep ++ w ++ post)

/-- The result of `_add_columns` (lines 201-223): the input frame plus the
constant `search_phrase` column, the per-row phrase count over the lowered
title and description, and the per-row money flag from `re.search` over
`title + ' ' + description`. -/
structure EnrichedFrame where
  base : Frame
  phraseCol : String
  countCol : List (Option Nat)
  moneyCol : List Bool
deriving DecidableEq, Repr

/-- The phrase count of one row (line 221): the regex-based count of the
lowered phrase in the lowered title plus the one in the lowered
description.  `none` when the phrase leaves the fragment of `re` modeled by
`pyStrCount`. -/
def rowPhraseCount (phrase t d : String) : Option Nat :=
  match pyStrCount (lowerL t.data) (lowerL phrase.data),
      pyStrCount (lowerL d.data) (lowerL phrase.data) with
  | some a, some b => some (a + b)
  | _, _ => none

/-- The money flag of one row (line 222). -/
def rowMoney (t d : String) : Bool :=
  moneySearch (t.data ++ ' ' :: d.data)

/-- `_add_columns(data_articles, search_phrase)`. -/
def addColumns (f : Frame) (phrase : String) : EnrichedFrame :=
  ⟨f, phrase,
   List.zipWith (fun t d => rowPhraseCount phrase t d) f.titleCol f.descCol,
   List.zipWith (fun t d => rowMoney t d) f.titleCol f.descCol⟩

/-- The one exception kind the body of `scrape` can actually raise past its
inner calls: `_search`, `_filter_categories`, `_extract_data` and
`_save_results` all catch their own exceptions and only log, while
`_add_columns` has no handler and `None['search_phrase']` raises
`TypeError` when `_extract_data` produced `None`. -/
inductive PyErr where
  | typeErrorNoneFrame
deriving DecidableEq, Repr

/-- `_save_results` (lines 226-252): writes the file unless the folder
creation or the Excel write raises, in which case it logs and writes
nothing. -/
def saveResults (ef : EnrichedFrame) (ioFails : Bool) : Option EnrichedFrame :=
  if ioFails then none else some ef

/-- The inputs one `scrape` run depends on in this embedding. -/
structure ScrapeEnv where
  pages : List Page
  monthsBack : Int
  today : Datetime
  searchPhrase : String
  ioFails : Bool
deriving DecidableEq, Repr

/-- The `try` block of `scrape` (lines 271-285): search and category
filtering only log, extraction yields a frame or `None`, enrichment raises
on `None`, saving logs on failure.  The `Except` error is an exception
reaching the end of the `try` block. -/
def scrapeBody (env : ScrapeEnv) : Except PyErr (Option EnrichedFrame) :=
  match extractData env.pages env.monthsBack env.today with
  | none => Except.error PyErr.typeErrorNoneFrame
  | some f => Except.ok (saveResults (addColumns f env.searchPhrase) env.ioFails)

/-- What a caller can observe of one `scrape` run: whether the `except`
branch logged an error, whether `driver.quit()` ran, and what was written. -/
structure ScrapeResult where
  errorLogged : Bool
  quitDone : Bool
  written : Option EnrichedFrame
deriving DecidableEq, Repr

/-- `scrape` (lines 254-291): the `try` block, the `except Exception`
branch that converts any exception to a log line, and the `finally` branch
that always quits the driver.  The function is total: no error value
escapes its result type. -/
def scrape (env : ScrapeEnv) : ScrapeResult :=
  match scrapeBody env with
  | Except.ok w => ⟨false, true, w⟩
  | Except.error _ => ⟨true, true, none⟩

/-- The records of one page, in listing order. -/
def pageRecords (today : Datetime) (p : Page) : List (Datetime × String × String × String) :=
  p.entries.filterMap (entryRecord today)

/-- The records of a list of pages, in page-then-listing order. -/
def pagesRecords (today : Datetime) : List Page → List (Datetime × String × String × String)
  | [] => []
  | p :: ps => pageRecords today p ++ pagesRecords today ps

/-- A result page used to exercise the all-pages-good run of the pagination
loop on concrete data. -/
def wPage : Page :=
  Page.mk true [Entry.mk (some "August 3, 2023") (some "T") (some "D") (some "P")] true

/-- Nine copies of `wPage`: a browser session with at least `maxPages`
result pages, none of which triggers the date cutoff. -/
def wPages9 : List Page :=
  [wPage, wPage, wPage, wPage, wPage, wPage, wPage, wPage, wPage]

theorem pushRecords_append (st : Frame) (a b : List (Datetime × String × String × String)) :
    pushRecords st (a ++ b) = pushRecords (pushRecords st a) b := by
  simp [pushRecords, List.foldl_append]

theorem goodEntryB_elim {cutoff today : Datetime} {e : Entry}
    (h : goodEntryB cutoff today e = true) :
    ∃ raw t ds pic d,
      e.rawDate = some raw ∧ e.title = some t ∧ e.description = some ds ∧
      e.picture = some pic ∧ normalizeDate raw today = some d ∧
      dtLt d cutoff = false ∧ entryRecord today e = some (d, t, ds, pic) := by
  unfold goodEntryB at h
  cases hrec : entryRecord today e with
  | none => rw [hrec] at h; simp at h
  | some r =>
    rw [hrec] at h
    simp only [Bool.not_eq_true'] at h
    unfold entryRecord at hrec
    cases hrd : e.rawDate with
    | none => rw [hrd] at hrec; simp at hrec
    | some raw =>
      rw [hrd] at hrec; dsimp only at hrec
      cases hnorm : normalizeDate raw today with
      | none => rw [hnorm] at hrec; simp at hrec
      | some d =>
        rw [hnorm] at hrec; dsimp only at hrec
        cases htt : e.title with
        | none => rw [htt] at hrec; simp at hrec
        | some t =>
          rw [htt] at hrec; dsimp only at hrec
          cases hdd : e.description with
          | none => rw [hdd] at hrec; simp at hrec
          | some ds =>
            rw [hdd] at hrec; dsimp only at hrec
            cases hpp : e.picture with
            | none => rw [hpp] at hrec; simp at hrec
            | some pic =>
              rw [hpp] at hrec; dsimp only at hrec
              simp only [Option.some.injEq] at hrec
              subst hrec
              exact ⟨raw, t, ds, pic, d, rfl, rfl, rfl, rfl, hnorm, h, rfl⟩

theorem processEntries_good (cutoff today : Datetime) (es : List Entry) :
    ∀ st : Frame, es.all (goodEntryB cutoff today) = true →
      processEntries cutoff today es st
        = StepRes.cont (pushRecords st (es.filterMap (entryRecord today))) := by
  induction es with
  | nil => intro st _; rfl
  | cons e rest ih =>
    intro st h
    rw [List.all_cons, Bool.and_eq_true] at h
    obtain ⟨raw, t, ds, pic, d, h1, h2, h3, h4, h5, h6, h7⟩ := goodEntryB_elim h.1
    rw [List.filterMap_cons_some h7]
    simp only [processEntries, h1, h5, h6, h2, h3, h4, Bool.false_eq_true, if_false]
    exact ih (pushRecord st (d, t, ds, pic)) h.2

theorem processEntries_early (cutoff today : Datetime) (es : List Entry)
    {bad : Entry} {braw : String} {bd : Datetime} (tail : List Entry)
    (hraw : bad.rawDate = some braw)
    (hnorm : normalizeDate braw today = some bd)
    (hlt : dtLt bd cutoff = true) :
    ∀ st : Frame, es.all (goodEntryB cutoff today) = true →
      processEntries cutoff today (es ++ bad :: tail) st
        = StepRes.early (pushRecords st (es.filterMap (entryRecord today))) := by
  induction es with
  | nil =>
    intro st _
    simp only [List.nil_append, processEntries, hraw, hnorm, hlt, if_true,
      List.filterMap_nil]
    rfl
  | cons e rest ih =>
    intro st h
    rw [List.all_cons, Bool.and_eq_true] at h
    obtain ⟨raw, t, ds, pic, d, h1, h2, h3, h4, h5, h6, h7⟩ := goodEntryB_elim h.1
    rw [List.filterMap_cons_some h7]
    simp only [List.cons_append, processEntries, h1, h5, h6, h2, h3, h4,
      Bool.false_eq_true, if_false]
    exact ih (pushRecord st (d, t, ds, pic)) h.2

theorem processEntries_err (cutoff today : Datetime) (es : List Entry)
    {bad : Entry} {braw : String} (tail : List Entry)
    (hraw : bad.rawDate = some braw)
    (hnorm : normalizeDate braw today = none) :
    ∀ st : Frame, es.all (goodEntryB cutoff today) = true →
      processEntries cutoff today (es ++ bad :: tail) st = StepRes.err := by
  induction es with
  | nil =>
    intro st _
    simp only [List.nil_append, processEntries, hraw, hnorm]
  | cons e rest ih =>
    intro st h
    rw [List.all_cons, Bool.and_eq_true] at h
    obtain ⟨raw, t, ds, pic, d, h1, h2, h3, h4, h5, h6, h7⟩ := goodEntryB_elim h.1
    simp only [List.cons_append, processEntries, h1, h5, h6, h2, h3, h4,
      Bool.false_eq_true, if_false]
    exact ih (pushRecord st (d, t, ds, pic)) h.2

theorem extractLoop_take (cutoff today : Datetime) :
    ∀ (n : Nat) (pages : List Page) (st : Frame),
      extractLoop cutoff today n pages st
        = extractLoop cutoff today n (pages.take n) st := by
  intro n
  induction n with
  | zero => intro pages st; rfl
  | succ m ih =>
    intro pages st
    cases pages with
    | nil => rfl
    | cons p rest =>
      simp only [List.take_succ_cons, extractLoop]
      cases processEntries cutoff today p.entries st with
      | cont st' =>
        by_cases hn : p.nextOk = true
        · simp only [hn, if_true, ih rest st']
        · simp only [Bool.not_eq_true] at hn
          simp only [hn, Bool.false_eq_true, if_false]
      | early f => rfl
      | err => rfl

theorem extractLoop_good (cutoff today : Datetime) :
    ∀ (n : Nat) (pages : List Page) (st : Frame),
      n ≤ pages.length →
      (pages.take n).all (goodPageB cutoff today) = true →
      extractLoop cutoff today n pages st
        = some (pushRecords st (pagesRecords today (pages.take n))) := by
  intro n
  induction n with
  | zero => intro pages st _ _; rfl
  | succ m ih =>
    intro pages st hlen hgood
    cases pages with
    | nil => simp at hlen
    | cons p rest =>
      simp only [List.take_succ_cons, List.all_cons, Bool.and_eq_true] at hgood
      obtain ⟨hp, hrest⟩ := hgood
      unfold goodPageB at hp
      rw [Bool.and_eq_true, Bool.and_eq_true] at hp
      obtain ⟨⟨hok, hnext⟩, hentries⟩ := hp
      simp only [extractLoop, hok, if_true,
        processEntries_good cutoff today p.entries st hentries, hnext]
      rw [List.length_cons] at hlen
      rw [ih rest _ (Nat.le_of_succ_le_succ hlen) hrest]
      simp only [List.take_succ_cons, pagesRecords, pageRecords,
        pushRecords_append]

theorem extractLoop_stop (cutoff today : Datetime)
    {goodEs : List Entry} {bad : Entry} {braw : String} {bd : Datetime}
    (tail : List Entry) (nx : Bool) (rest : List Page)
    (hges : goodEs.all (goodEntryB cutoff today) = true)
    (hraw : bad.rawDate = some braw)
    (hnorm : normalizeDate braw today = some bd)
    (hlt : dtLt bd cutoff = true) :
    ∀ (gp : List Page) (n : Nat) (st : Frame),
      gp.length < n →
      gp.all (goodPageB cutoff today) = true →
      extractLoop cutoff today n
          (gp ++ Page.mk true (goodEs ++ bad :: tail) nx :: rest) st
        = some (pushRecords st
            (pagesRecords today gp ++ goodEs.filterMap (entryRecord today))) := by
  intro gp
  induction gp with
  | nil =>
    intro n st hn _
    cases n with
    | zero => simp at hn
    | succ m =>
      simp only [List.nil_append, extractLoop, if_true,
        processEntries_early cutoff today goodEs tail hraw hnorm hlt st hges,
        pagesRecords]
  | cons p gtl ih =>
    intro n st hn hgood
    rw [List.all_cons, Bool.and_eq_true] at hgood
    obtain ⟨hp, hrest⟩ := hgood
    unfold goodPageB at hp
    rw [Bool.and_eq_true, Bool.and_eq_true] at hp
    obtain ⟨⟨hok, hnext⟩, hentries⟩ := hp
    cases n with
    | zero => simp at hn
    | succ m =>
      simp only [List.cons_append, extractLoop, hok, if_true,
        processEntries_good cutoff today p.entries st hentries, hnext,
        List.append_eq]
      rw [List.length_cons] at hn
      rw [ih m _ (Nat.lt_of_succ_lt_succ hn) hrest]
      simp only [pagesRecords, pageRecords, List.append_assoc,
        pushRecords_append]

theorem extractLoop_errStop (cutoff today : Datetime)
    {goodEs : List Entry} {bad : Entry} {braw : String}
    (tail : List Entry) (nx : Bool) (rest : List Page)
    (hges : goodEs.all (goodEntryB cutoff today) = true)
    (hraw : bad.rawDate = some braw)
    (hnorm : normalizeDate braw today = none) :
    ∀ (gp : List Page) (n : Nat) (st : Frame),
      gp.length < n →
      gp.all (goodPageB cutoff today) = true →
      extractLoop cutoff today n
          (gp ++ Page.mk true (goodEs ++ bad :: tail) nx :: rest) st = none := by
  intro gp
  induction gp with
  | nil =>
    intro n st hn _
    cases n with
    | zero => simp at hn
    | succ m =>
      simp only [List.nil_append, extractLoop, if_true,
        processEntries_err cutoff today goodEs tail hraw hnorm st hges]
  | cons p gtl ih =>
    intro n st hn hgood
    rw [List.all_cons, Bool.and_eq_true] at hgood
    obtain ⟨hp, hrest⟩ := hgood
    unfold goodPageB at hp
    rw [Bool.and_eq_true, Bool.and_eq_true] at hp
    obtain ⟨⟨hok, hnext⟩, hentries⟩ := hp
    cases n with
    | zero => simp at hn
    | succ m =>
      simp only [List.cons_append, extractLoop, hok, if_true,
        processEntries_good cutoff today p.entries st hentries, hnext,
        List.append_eq]
      rw [List.length_cons] at hn
      exact ih m _ (Nat.lt_of_succ_lt_succ hn) hrest

theorem processEntries_pres (cutoff today : Datetime) (P : Frame → Prop)
    (hpush : ∀ (st : Frame) (d : Datetime) (t ds pic : String),
      P st → dtLt d cutoff = false → P (pushRecord st (d, t, ds, pic))) :
    ∀ (es : List Entry) (st : Frame), P st →
      (∀ st', processEntries cutoff today es st = StepRes.cont st' → P st') ∧
      (∀ f, processEntries cutoff today es st = StepRes.early f → P f) := by
  intro es
  induction es with
  | nil =>
    intro st hst
    constructor
    · intro st' h
      simp only [processEntries, StepRes.cont.injEq] at h
      rw [← h]; exact hst
    · intro f h
      simp only [processEntries] at h
      exact StepRes.noConfusion h
  | cons e rest ih =>
    intro st hst
    have main : ∀ res, processEntries cutoff today (e :: rest) st = res →
        (∀ st', res = StepRes.cont st' → P st') ∧
        (∀ f, res = StepRes.early f → P f) := by
      intro res h
      simp only [processEntries] at h
      cases hrd : e.rawDate with
      | none =>
        rw [hrd] at h; dsimp only at h
        rw [← h]
        exact ⟨fun st' hc => by simp at hc, fun f hf => by simp at hf⟩
      | some raw =>
        rw [hrd] at h; dsimp only at h
        cases hnorm : normalizeDate raw today with
        | none =>
          rw [hnorm] at h; dsimp only at h
          rw [← h]
          exact ⟨fun st' hc => by simp at hc, fun f hf => by simp at hf⟩
        | some d =>
          rw [hnorm] at h; dsimp only at h
          by_cases hlt : dtLt d cutoff = true
          · rw [if_pos hlt] at h
            rw [← h]
            clear h
            constructor
            · intro st' hc; simp at hc
            · intro f hf
              simp only [StepRes.early.injEq] at hf
              rw [← hf]; exact hst
          · rw [Bool.not_eq_true] at hlt
            rw [hlt] at h
            simp only [Bool.false_eq_true, if_false] at h
            cases htt : e.title with
            | none =>
              rw [htt] at h; dsimp only at h
              rw [← h]
              exact ⟨fun st' hc => by simp at hc, fun f hf => by simp at hf⟩
            | some t =>
              rw [htt] at h; dsimp only at h
              cases hdd : e.description with
              | none =>
                rw [hdd] at h; dsimp only at h
                rw [← h]
                exact ⟨fun st' hc => by simp at hc, fun f hf => by simp at hf⟩
              | some ds =>
                rw [hdd] at h; dsimp only at h
                cases hpp : e.picture with
                | none =>
                  rw [hpp] at h; dsimp only at h
                  rw [← h]
                  exact ⟨fun st' hc => by simp at hc, fun f hf => by simp at hf⟩
                | some pic =>
                  rw [hpp] at h; dsimp only at h
                  rw [← h]
                  exact ih (pushRecord st (d, t, ds, pic))
                    (hpush st d t ds pic hst hlt)
    exact main (processEntries cutoff today (e :: rest) st) rfl

theorem extractLoop_pres (cutoff today : Datetime) (P : Frame → Prop)
    (hpush : ∀ (st : Frame) (d : Datetime) (t ds pic : String),
      P st → dtLt d cutoff = false → P (pushRecord st (d, t, ds, pic))) :
    ∀ (n : Nat) (pages : List Page) (st : Frame), P st →
      ∀ f, extractLoop cutoff today n pages st = some f → P f := by
  intro n
  induction n with
  | zero =>
    intro pages st hst f h
    simp only [extractLoop, Option.some.injEq] at h
    rw [← h]; exact hst
  | succ m ih =>
    intro pages st hst f h
    cases pages with
    | nil =>
      simp only [extractLoop] at h
      exact Option.noConfusion h
    | cons p rest =>
      simp only [extractLoop] at h
      by_cases hok : p.entriesOk = true
      · rw [if_pos hok] at h
        cases hpe : processEntries cutoff today p.entries st with
        | err =>
          rw [hpe] at h; dsimp only at h
          exact Option.noConfusion h
        | early g =>
          rw [hpe] at h; dsimp only at h
          simp only [Option.some.injEq] at h
          rw [← h]
          exact (processEntries_pres cutoff today P hpush p.entries st hst).2 g hpe
        | cont st' =>
          rw [hpe] at h; dsimp only at h
          by_cases hnx : p.nextOk = true
          · rw [if_pos hnx] at h
            exact ih rest st'
              ((processEntries_pres cutoff today P hpush p.entries st hst).1 st' hpe) f h
          · rw [Bool.not_eq_true] at hnx
            rw [hnx] at h
            simp at h
      · rw [Bool.not_eq_true] at hok
        rw [hok] at h
        simp at h

theorem wordAt_elim {l : List Char} (h : wordAt l = true) :
    ∃ w post, (w = dollarsWord ∨ w = usdWord) ∧ l = w ++ post := by
  unfold wordAt at h
  rw [Bool.or_eq_true] at h
  cases h with
  | inl h =>
    obtain ⟨post, hpost⟩ := List.isPrefixOf_iff_prefix.mp h
    exact ⟨dollarsWord, post, Or.inl rfl, hpost.symm⟩
  | inr h =>
    obtain ⟨post, hpost⟩ := List.isPrefixOf_iff_prefix.mp h
    exact ⟨usdWord, post, Or.inr rfl, hpost.symm⟩

theorem wordAt_intro (w post : List Char) (hw : w = dollarsWord ∨ w = usdWord) :
    wordAt (w ++ post) = true := by
  unfold wordAt
  rw [Bool.or_eq_true]
  cases hw with
  | inl h => exact Or.inl (List.isPrefixOf_iff_prefix.mpr ⟨post, by rw [h]⟩)
  | inr h => exact Or.inr (List.isPrefixOf_iff_prefix.mpr ⟨post, by rw [h]⟩)

theorem wsWordAt_elim {l : List Char} (h : wsWordAt l = true) :
    ∃ sep w post, (sep = [] ∨ ∃ c, sep = [c] ∧ isSpaceChar c = true) ∧
      (w = dollarsWord ∨ w = usdWord) ∧ l = sep ++ w ++ post := by
  unfold wsWordAt at h
  rw [Bool.or_eq_true] at h
  cases h with
  | inl h =>
    obtain ⟨w, post, hw, hl⟩ := wordAt_elim h
    exact ⟨[], w, post, Or.inl rfl, hw, by rw [hl]; rfl⟩
  | inr h =>
    cases l with
    | nil => simp at h
    | cons c rest =>
      dsimp only at h
      rw [Bool.and_eq_true] at h
      obtain ⟨w, post, hw, hl⟩ := wordAt_elim h.2
      exact ⟨[c], w, post, Or.inr ⟨c, rfl, h.1⟩, hw, by rw [hl]; rfl⟩

theorem wsWordAt_intro (sep w post : List Char)
    (hsep : sep = [] ∨ ∃ c, sep = [c] ∧ isSpaceChar c = true)
    (hw : w = dollarsWord ∨ w = usdWord) :
    wsWordAt (sep ++ w ++ post) = true := by
  unfold wsWordAt
  rw [Bool.or_eq_true]
  cases hsep with
  | inl h =>
    subst h
    exact Or.inl (by rw [List.nil_append]; exact wordAt_intro w post hw)
  | inr h =>
    obtain ⟨c, hc, hcs⟩ := h
    subst hc
    right
    simp only [List.cons_append, List.nil_append]
    rw [Bool.and_eq_true]
    exact ⟨hcs, wordAt_intro w post hw⟩

theorem afterCommaDigits_elim {l : List Char} (h : afterCommaDigits l = true) :
    ∃ pre d rest, l = pre ++ d :: rest ∧ isDigitChar d = true ∧ wsWordAt rest = true := by
  induction l with
  | nil => simp [afterCommaDigits] at h
  | cons c rest ih =>
    unfold afterCommaDigits at h
    rw [Bool.and_eq_true, Bool.or_eq_true] at h
    cases h.2 with
    | inl hws => exact ⟨[], c, rest, rfl, h.1, hws⟩
    | inr hmore =>
      obtain ⟨pre, d, r, hr, hd, hws⟩ := ih hmore
      exact ⟨c :: pre, d, r, by rw [hr]; rfl, hd, hws⟩

theorem numContAt_elim {l : List Char} (h : numContAt l = true) :
    wsWordAt l = true ∨
      ∃ pre d rest, l = pre ++ d :: rest ∧ isDigitChar d = true ∧ wsWordAt rest = true := by
  induction l with
  | nil => simp [numContAt] at h
  | cons c rest ih =>
    unfold numContAt at h
    rw [Bool.or_eq_true, Bool.or_eq_true] at h
    rcases h with (hws | hcomma) | hdig
    · exact Or.inl hws
    · rw [Bool.and_eq_true] at hcomma
      obtain ⟨pre, d, r, hr, hd, hws⟩ := afterCommaDigits_elim hcomma.2
      exact Or.inr ⟨c :: pre, d, r, by rw [hr]; rfl, hd, hws⟩
    · rw [Bool.and_eq_true] at hdig
      cases ih hdig.2 with
      | inl hws => exact Or.inr ⟨[], c, rest, rfl, hdig.1, hws⟩
      | inr hmore =>
        obtain ⟨pre, d, r, hr, hd, hws⟩ := hmore
        exact Or.inr ⟨c :: pre, d, r, by rw [hr]; rfl, hd, hws⟩

theorem numContAt_intro {l : List Char} (hne : l ≠ []) (h : wsWordAt l = true) :
    numContAt l = true := by
  cases l with
  | nil => exact absurd rfl hne
  | cons c rest =>
    unfold numContAt
    rw [Bool.or_eq_true, Bool.or_eq_true]
    exact Or.inl (Or.inl h)

theorem dollarAt_elim {l : List Char} (h : dollarAt l = true) :
    ∃ d rest, l = '$' :: d :: rest ∧ isDigitChar d = true := by
  unfold dollarAt at h
  split at h
  · next d rest => exact ⟨d, rest, rfl, h⟩
  · simp at h

theorem moneySearch_iff_spec (s : List Char) :
    moneySearch s = true ↔ SpecCurrency s := by
  constructor
  · intro h
    unfold moneySearch at h
    rw [List.any_eq_true] at h
    obtain ⟨t, hmem, ht⟩ := h
    obtain ⟨pre, hpre⟩ := (List.mem_tails _ _).mp hmem
    rw [Bool.or_eq_true] at ht
    cases ht with
    | inl hdol =>
      obtain ⟨d, rest, hshape, hd⟩ := dollarAt_elim hdol
      exact Or.inl ⟨pre, d, rest, by rw [← hpre, hshape], hd⟩
    | inr hnum =>
      cases t with
      | nil => simp [numAt] at hnum
      | cons c rest =>
        unfold numAt at hnum
        rw [Bool.and_eq_true] at hnum
        cases numContAt_elim hnum.2 with
        | inl hws =>
          obtain ⟨sep, w, post, hsep, hw, hrest⟩ := wsWordAt_elim hws
          refine Or.inr ⟨pre, [c], sep, w, post, by simp, ?_, hsep, hw, ?_⟩
          · intro x hx
            rw [List.mem_singleton] at hx
            rw [hx]; exact hnum.1
          · rw [← hpre, hrest]; simp
        | inr hmore =>
          obtain ⟨pre2, d, r, hr, hd, hws⟩ := hmore
          obtain ⟨sep, w, post, hsep, hw, hrest⟩ := wsWordAt_elim hws
          refine Or.inr ⟨pre ++ c :: pre2, [d], sep, w, post, by simp, ?_, hsep, hw, ?_⟩
          · intro x hx
            rw [List.mem_singleton] at hx
            rw [hx]; exact hd
          · rw [← hpre, hr, hrest]; simp
  · intro h
    unfold moneySearch
    rw [List.any_eq_true]
    cases h with
    | inl hdol =>
      obtain ⟨pre, d, post, hs, hd⟩ := hdol
      refine ⟨'$' :: d :: post, (List.mem_tails _ _).mpr ⟨pre, hs.symm⟩, ?_⟩
      rw [Bool.or_eq_true]
      exact Or.inl (by unfold dollarAt; exact hd)
    | inr hnum =>
      obtain ⟨pre, num, sep, w, post, hne, hdig, hsep, hw, hs⟩ := hnum
      obtain ⟨num', dL, hnum'⟩ := (List.eq_nil_or_concat num).resolve_left hne
      have hdL : isDigitChar dL = true := hdig dL (by rw [hnum']; simp)
      have hwne : w ≠ [] := by
        cases hw with
        | inl h1 => rw [h1]; simp [dollarsWord]
        | inr h1 => rw [h1]; simp [usdWord]
      have htne : sep ++ w ++ post ≠ [] := by
        intro hcon
        rw [List.append_assoc] at hcon
        rcases List.append_eq_nil.mp hcon with ⟨_, h2⟩
        exact hwne (List.append_eq_nil.mp h2).1
      refine ⟨dL :: (sep ++ w ++ post), (List.mem_tails _ _).mpr ⟨pre ++ num', ?_⟩, ?_⟩
      · rw [hs, hnum']
        simp [List.concat_eq_append]
      · rw [Bool.or_eq_true]
        right
        unfold numAt
        rw [Bool.and_eq_true]
        exact ⟨hdL, numContAt_intro htne (wsWordAt_intro sep w post hsep hw)⟩

theorem zipWith_get_some {α β γ : Type} (g : α → β → γ) :
    ∀ (l1 : List α) (l2 : List β) (i : Nat) (x : α) (y : β),
      l1.get? i = some x → l2.get? i = some y →
      (List.zipWith g l1 l2).get? i = some (g x y) := by
  intro l1
  induction l1 with
  | nil => intro l2 i x y h1 _; simp at h1
  | cons a l1' ih =>
    intro l2 i x y h1 h2
    cases l2 with
    | nil => simp at h2
    | cons b l2' =>
      cases i with
      | zero =>
        simp only [List.get?, Option.some.injEq] at h1 h2
        rw [List.zipWith_cons_cons]
        simp only [List.get?, Option.some.injEq]
        rw [h1, h2]
      | succ j =>
        rw [List.zipWith_cons_cons]
        simp only [List.get?] at h1 h2 ⊢
        exact ih l2' j x y h1 h2

theorem one_le_daysInMonth (y m : Int) : 1 ≤ daysInMonth y m := by
  unfold daysInMonth
  split
  · split <;> omega
  · split <;> omega

theorem validDt_bounds {t : Datetime} (h : validDt t = true) :
    1 ≤ t.year ∧ t.year ≤ 9999 := by
  unfold validDt mkDatetime at h
  split at h
  · next hcond => exact ⟨hcond.1, hcond.2.1⟩
  · have hfalse := eq_of_beq h
    simp at hfalse

/-- C6: for every `now` (a value the Python `datetime.today()` can produce)
and every `months_back` such that `now.month - months_back` is a valid month
number between 1 and 12, the cutoff computed on line 148 is the first day of
month `now.month - months_back` of year `now.year` (at midnight, which is
day granularity here). -/
theorem claimC6 (today : Datetime) (mb : Int)
    (hval : validDt today = true)
    (h1 : 1 ≤ today.month - mb) (h2 : today.month - mb ≤ 12) :
    dateMin mb today = some ⟨today.year, today.month - mb, 1⟩ := by
  obtain ⟨hy1, hy2⟩ := validDt_bounds hval
  unfold dateMin mkDatetime
  rw [if_pos]
  exact ⟨hy1, hy2, h1, h2, le_refl 1, one_le_daysInMonth _ _⟩

/-- Witness for C6 at the claim's own example: `monthsBack = 2` with
`now = 2023-08-15` yields cutoff `2023-06-01`. -/
theorem claimC6_witness : dateMin 2 ⟨2023, 8, 15⟩ = some ⟨2023, 6, 1⟩ := by
  have h := claimC6 ⟨2023, 8, 15⟩ 2 (by decide) (by decide) (by decide)
  exact h.trans (by decide)

/-- C4 fails as stated: the claim orders the steps as "if the string
contains the substring `ago`, return now; otherwise strip periods and
parse", but the code (line 160 before line 161) strips periods before the
`ago` test.  On the input `"ag.o"`, which does not contain `ago`, the
claim's reading must attempt to parse (and fail fatally), while the code
resolves it to `now`. -/
theorem claimC4_counterexample :
    normalizeDate "ag.o" ⟨2023, 8, 15⟩ = some ⟨2023, 8, 15⟩ ∧
    normalizeSpecC4 "ag.o" ⟨2023, 8, 15⟩ = none ∧
    normalizeDate "ag.o" ⟨2023, 8, 15⟩ ≠ normalizeSpecC4 "ag.o" ⟨2023, 8, 15⟩ := by
  exact ⟨by decide, by decide, by decide⟩

/-- C4 as amended: for every raw date string and time `now`, literal period
characters are stripped first; if the stripped text contains the substring
`ago`, normalization returns `now`; otherwise the stripped text is parsed as
a long-form date first, falling back to the abbreviated-month form; and the
same result is produced regardless of a trailing period. -/
theorem claimC4 (raw : String) (t : Datetime) :
    (hasAgoSub (stripPeriods raw.data) = true → normalizeDate raw t = some t) ∧
    (∀ d : Datetime, hasAgoSub (stripPeriods raw.data) = false →
      parseLongDate (stripPeriods raw.data) = some d → normalizeDate raw t = some d) ∧
    (hasAgoSub (stripPeriods raw.data) = false →
      parseLongDate (stripPeriods raw.data) = none →
      normalizeDate raw t = parseAbbrevDate (stripPeriods raw.data)) ∧
    normalizeDate (raw ++ ".") t = normalizeDate raw t := by
  have key : stripPeriods ((raw ++ ".").data) = stripPeriods raw.data := by
    rw [String.data_append]
    unfold stripPeriods
    rw [List.filter_append]
    simp
  refine ⟨?_, ?_, ?_, ?_⟩
  · intro h
    simp [normalizeDate, h]
  · intro d h hl
    simp [normalizeDate, h, hl]
  · intro h hl
    simp [normalizeDate, h, hl]
  · simp only [normalizeDate, key]

/-- Witness for C4 (amended) at concrete inputs: a relative marker resolves
to `now`, a long-form date parses in the first attempt, an abbreviated date
falls through to the second attempt, and a trailing period changes
nothing. -/
theorem claimC4_witness :
    normalizeDate "3 hours ago" ⟨2023, 8, 15⟩ = some ⟨2023, 8, 15⟩ ∧
    normalizeDate "August 3, 2023" ⟨2023, 8, 15⟩ = some ⟨2023, 8, 3⟩ ∧
    normalizeDate "Aug 3, 2023" ⟨2023, 8, 15⟩
      = parseAbbrevDate (stripPeriods ("Aug 3, 2023").data) ∧
    normalizeDate ("Aug 3, 2023" ++ ".") ⟨2023, 8, 15⟩
      = normalizeDate "Aug 3, 2023" ⟨2023, 8, 15⟩ :=
  ⟨(claimC4 "3 hours ago" ⟨2023, 8, 15⟩).1 (by decide),
   (claimC4 "August 3, 2023" ⟨2023, 8, 15⟩).2.1 ⟨2023, 8, 3⟩ (by decide) (by decide),
   (claimC4 "Aug 3, 2023" ⟨2023, 8, 15⟩).2.2.1 (by decide) (by decide),
   (claimC4 "Aug 3, 2023" ⟨2023, 8, 15⟩).2.2.2⟩

/-- C5: a raw date string that (after period stripping) does not contain
`ago` and matches neither the long-form nor the abbreviated-month format
fails to normalize, and such a failure while an entry is being processed is
fatal for the run: extraction returns no records at all — independent of
the remaining entries on the page and of every further page. -/
theorem claimC5 :
    (∀ (raw : String) (t : Datetime),
      hasAgoSub (stripPeriods raw.data) = false →
      parseLongDate (stripPeriods raw.data) = none →
      parseAbbrevDate (stripPeriods raw.data) = none →
      normalizeDate raw t = none) ∧
    (∀ (gp : List Page) (goodEs : List Entry) (bad : Entry) (braw : String)
        (tail : List Entry) (nx : Bool) (rest : List Page)
        (mb : Int) (today cutoff : Datetime),
      dateMin mb today = some cutoff →
      gp.length < 9 →
      gp.all (goodPageB cutoff today) = true →
      goodEs.all (goodEntryB cutoff today) = true →
      bad.rawDate = some braw →
      normalizeDate braw today = none →
      extractData (gp ++ Page.mk true (goodEs ++ bad :: tail) nx :: rest) mb today
        = none) := by
  constructor
  · intro raw t h1 h2 h3
    simp [normalizeDate, h1, h2, h3]
  · intro gp goodEs bad braw tail nx rest mb today cutoff hcut hlen hgp hges hraw hnorm
    unfold extractData
    rw [hcut]
    exact extractLoop_errStop cutoff today tail nx rest hges hraw hnorm gp 9
      emptyFrame hlen hgp

/-- Witness for C5: `"13 June 2023"` (day before month) matches neither
format and fails to normalize, and a run that reaches such an entry returns
no records even though further entries and pages were available. -/
theorem claimC5_witness :
    normalizeDate "13 June 2023" ⟨2023, 8, 15⟩ = none ∧
    extractData
        [Page.mk true
          [Entry.mk (some "13 June 2023") (some "T") (some "D") (some "P"),
           Entry.mk (some "August 3, 2023") (some "T2") (some "D2") (some "P2")] true,
         Page.mk true [] true]
        2 ⟨2023, 8, 15⟩ = none :=
  ⟨claimC5.1 "13 June 2023" ⟨2023, 8, 15⟩ (by decide) (by decide) (by decide),
   claimC5.2 [] []
     (Entry.mk (some "13 June 2023") (some "T") (some "D") (some "P"))
     "13 June 2023"
     [Entry.mk (some "August 3, 2023") (some "T2") (some "D2") (some "P2")]
     true [Page.mk true [] true] 2 ⟨2023, 8, 15⟩ ⟨2023, 6, 1⟩
     (by decide) (by decide) (by decide) (by decide) rfl (by decide)⟩

/-- C1: the record set returned by the pagination loop never contains a
record whose normalized date is strictly below the computed cutoff
(first conjunct); and at the first record in page-then-listing order whose
normalized date is strictly below the cutoff, extraction stops immediately
and returns exactly the records accumulated before it — excluding that
record, every later entry of the current page (`tail`), and every further
page (`rest`), none of which influence the result.  A record whose date is
exactly equal to the cutoff satisfies `goodEntryB` (only strictly-less-than
stops), so it is kept; the witness exercises that tie-break. -/
theorem claimC1 :
    (∀ (pages : List Page) (mb : Int) (today cutoff : Datetime) (f : Frame),
      dateMin mb today = some cutoff →
      extractData pages mb today = some f →
      ∀ d ∈ f.dateCol, dtLt d cutoff = false) ∧
    (∀ (gp : List Page) (goodEs : List Entry) (bad : Entry) (braw : String)
        (bd : Datetime) (tail : List Entry) (nx : Bool) (rest : List Page)
        (mb : Int) (today cutoff : Datetime),
      dateMin mb today = some cutoff →
      gp.length < 9 →
      gp.all (goodPageB cutoff today) = true →
      goodEs.all (goodEntryB cutoff today) = true →
      bad.rawDate = some braw →
      normalizeDate braw today = some bd →
      dtLt bd cutoff = true →
      extractData (gp ++ Page.mk true (goodEs ++ bad :: tail) nx :: rest) mb today
        = some (pushRecords emptyFrame
            (pagesRecords today gp ++ goodEs.filterMap (entryRecord today)))) := by
  constructor
  · intro pages mb today cutoff f hcut hx d hd
    unfold extractData at hx
    rw [hcut] at hx
    dsimp only at hx
    refine extractLoop_pres cutoff today
      (fun fr => ∀ x ∈ fr.dateCol, dtLt x cutoff = false)
      ?_ 9 pages emptyFrame ?_ f hx d hd
    · intro st d0 t ds pic hst hlt0 d1 hd1
      unfold pushRecord at hd1
      dsimp only at hd1
      rw [List.mem_append] at hd1
      cases hd1 with
      | inl h => exact hst d1 h
      | inr h =>
        rw [List.mem_singleton] at h
        rw [h]; exact hlt0
    · intro d0 hd0
      simp [emptyFrame] at hd0
  · intro gp goodEs bad braw bd tail nx rest mb today cutoff hcut hlen hgp hges
      hraw hnorm hlt
    unfold extractData
    rw [hcut]
    exact extractLoop_stop cutoff today tail nx rest hges hraw hnorm hlt gp 9
      emptyFrame hlen hgp

/-- Witness for C1: a concrete run whose only returned date (2023-08-03)
is not below the cutoff 2023-06-01, and a concrete stop-shape run in which
an entry dated exactly at the cutoff (2023-06-01) is kept, the first
strictly-below entry (2023-05-31) stops extraction, and neither the rest of
that page nor a further page is visited. -/
theorem claimC1_witness :
    dtLt ⟨2023, 8, 3⟩ ⟨2023, 6, 1⟩ = false ∧
    extractData
        [Page.mk true
          [Entry.mk (some "June 1, 2023") (some "TJ") (some "DJ") (some "PJ"),
           Entry.mk (some "May 31, 2023") (some "TM") (some "DM") (some "PM"),
           Entry.mk (some "not a date at all") none none none] false,
         Page.mk false [] false]
        2 ⟨2023, 8, 15⟩
      = some (pushRecords emptyFrame
          (pagesRecords ⟨2023, 8, 15⟩ []
            ++ List.filterMap (entryRecord ⟨2023, 8, 15⟩)
              [Entry.mk (some "June 1, 2023") (some "TJ") (some "DJ") (some "PJ")])) :=
  ⟨claimC1.1
      [Page.mk true
        [Entry.mk (some "August 3, 2023") (some "TA") (some "DA") (some "PA"),
         Entry.mk (some "January 1, 2023") (some "TO") (some "DO") (some "PO")] false]
      2 ⟨2023, 8, 15⟩ ⟨2023, 6, 1⟩
      (Frame.mk [⟨2023, 8, 3⟩] ["TA"] ["DA"] ["PA"])
      (by decide) (by decide) ⟨2023, 8, 3⟩ (by decide),
   claimC1.2 []
      [Entry.mk (some "June 1, 2023") (some "TJ") (some "DJ") (some "PJ")]
      (Entry.mk (some "May 31, 2023") (some "TM") (some "DM") (some "PM"))
      "May 31, 2023" ⟨2023, 5, 31⟩
      [Entry.mk (some "not a date at all") none none none]
      false [Page.mk false [] false] 2 ⟨2023, 8, 15⟩ ⟨2023, 6, 1⟩
      (by decide) (by decide) (by decide) (by decide) rfl (by decide) (by decide)⟩

/-- C2 fails as stated: when a date parse error (or a failed browser wait)
occurs before the cutoff is ever triggered, the code does not "return
exactly the records accumulated so far" — the raised exception makes
`_extract_data` return `None`, losing the (here empty) accumulator.  The
input is a single page whose first entry's date matches neither format. -/
theorem claimC2_counterexample :
    extractData
        [Page.mk true [Entry.mk (some "not a date") (some "T") (some "D") (some "P")] true]
        0 ⟨2023, 8, 15⟩ = none ∧
    extractData
        [Page.mk true [Entry.mk (some "not a date") (some "T") (some "D") (some "P")] true]
        0 ⟨2023, 8, 15⟩ ≠ some emptyFrame := by
  exact ⟨by decide, by decide⟩

/-- C2 as amended: the pagination loop iterates over at most `maxPages = 9`
result pages — the result depends only on the first nine pages (first
conjunct, with no further hypotheses) — and when at least nine pages are
available and on the first nine every browser wait succeeds and every entry
extracts with a date not below the cutoff (so the cutoff is never
triggered), the loop stops after nine pages and returns exactly the records
accumulated from them, silently truncating deeper results. -/
theorem claimC2 :
    (∀ (pages : List Page) (mb : Int) (today : Datetime),
      extractData pages mb today = extractData (pages.take 9) mb today) ∧
    (∀ (pages : List Page) (mb : Int) (today cutoff : Datetime),
      dateMin mb today = some cutoff →
      9 ≤ pages.length →
      (pages.take 9).all (goodPageB cutoff today) = true →
      extractData pages mb today
        = some (pushRecords emptyFrame (pagesRecords today (pages.take 9)))) := by
  constructor
  · intro pages mb today
    unfold extractData
    cases hcut : dateMin mb today with
    | none => rfl
    | some cutoff =>
      dsimp only
      exact extractLoop_take cutoff today 9 pages emptyFrame
  · intro pages mb today cutoff hcut hlen hgood
    unfold extractData
    rw [hcut]
    exact extractLoop_good cutoff today 9 pages emptyFrame hlen hgood

/-- Witness for C2 (amended): a session of nine identical good pages is
extracted completely — nine pages' worth of records, one per page — and
the truncation part is exercised by the first conjunct at a concrete list
of ten pages. -/
theorem claimC2_witness :
    extractData wPages9 0 ⟨2023, 8, 15⟩
      = some (pushRecords emptyFrame (pagesRecords ⟨2023, 8, 15⟩ (wPages9.take 9))) ∧
    extractData (wPage :: wPages9) 0 ⟨2023, 8, 15⟩
      = extractData ((wPage :: wPages9).take 9) 0 ⟨2023, 8, 15⟩ :=
  ⟨claimC2.2 wPages9 0 ⟨2023, 8, 15⟩ ⟨2023, 8, 1⟩ (by decide) (by decide) (by decide),
   claimC2.1 (wPage :: wPages9) 0 ⟨2023, 8, 15⟩⟩

/-- C3 (code bug): the claim — and the docstring of `_extract_data`, which
promises a `pd.DataFrame` return — say that when the next-page control is
unavailable after a fully consumed page (the last-page case), extraction
stops and returns the records accumulated so far, with downstream
processing continuing on them.  The code instead lets the raised timeout
reach the `except` of lines 196-198, which logs and falls through, so
`_extract_data` returns `None`: the accumulated record (2023-08-03 here) is
lost, `_add_columns(None, ...)` raises `TypeError`, `scrape` catches it and
logs (`errorLogged = true`), and nothing is written. -/
theorem claimC3_code_eval :
    extractData
        [Page.mk true [Entry.mk (some "Aug 3, 2023") (some "Title") (some "Desc") (some "Pic")] false]
        2 ⟨2023, 8, 15⟩ = none ∧
    scrape (ScrapeEnv.mk
        [Page.mk true [Entry.mk (some "Aug 3, 2023") (some "Title") (some "Desc") (some "Pic")] false]
        2 ⟨2023, 8, 15⟩ "argentina" false)
      = ScrapeResult.mk true true none := by
  exact ⟨by decide, by decide⟩

/-- The literal-plus-dot compiler on a pattern with no metacharacter at
all produces exactly the literal tokens of the pattern. -/
theorem compileDotLit_literal (pat : List Char)
    (h : pat.all (fun c => !(isReMeta c)) = true) :
    compileDotLit pat = some (pat.map ReTok.lit) := by
  induction pat with
  | nil => rfl
  | cons c rest ih =>
    rw [List.all_cons, Bool.and_eq_true] at h
    have hne : isReMeta c = false := by
      have h1 := h.1
      rw [Bool.not_eq_true'] at h1
      exact h1
    have hdot : ¬(c = '.') := by
      intro hc
      rw [hc] at hne
      simp [isReMeta] at hne
    simp only [compileDotLit, ih h.2]
    rw [if_neg hdot, if_neg (by simp [hne])]
    rfl

/-- Matching a list of literal tokens as a head of the input is exactly the
prefix test, consuming the pattern's length. -/
theorem matchToksAt_lits (pat : List Char) :
    ∀ s : List Char, matchToksAt (pat.map ReTok.lit) s
      = if pat.isPrefixOf s then some (s.drop pat.length) else none := by
  induction pat with
  | nil => intro s; simp [matchToksAt, List.isPrefixOf]
  | cons p ps ih =>
    intro s
    cases s with
    | nil => simp [matchToksAt, List.isPrefixOf]
    | cons c rest =>
      simp only [List.map_cons, matchToksAt, tokMatches]
      by_cases hc : c = p
      · subst hc
        rw [if_pos (by simp), ih rest]
        simp only [List.isPrefixOf, beq_self_eq_true, Bool.true_and,
          List.length_cons, List.drop_succ_cons]
      · rw [if_neg (by simp [hc])]
        have hpc : (p == c) = false := beq_eq_false_iff_ne.mpr (fun h => hc h.symm)
        simp [List.isPrefixOf, hpc]

/-- Scanning with a non-empty all-literal pattern counts exactly as the
naive non-overlapping substring scan does. -/
theorem reTokCountAux_lits (pat : List Char) (hne : pat ≠ []) :
    ∀ (s : List Char) (k : Nat),
      reTokCountAux (pat.map ReTok.lit) k s = countOccAux pat k s := by
  intro s
  induction s with
  | nil => intro k; cases k <;> rfl
  | cons c rest ih =>
    intro k
    cases k with
    | succ j =>
      simp only [reTokCountAux, countOccAux]
      exact ih j
    | zero =>
      simp only [reTokCountAux, countOccAux]
      rw [matchToksAt_lits]
      by_cases hp : pat.isPrefixOf (c :: rest) = true
      · rw [if_pos hp]
        dsimp only
        rw [if_pos ⟨hp, hne⟩, List.length_map]
        rw [ih (pat.length - 1)]
      · rw [if_neg hp]
        dsimp only
        rw [if_neg (fun hcon => hp hcon.1)]
        exact ih 0

/-- On a pattern free of regex metacharacters, the regex-based
`Series.str.count` value is defined and equals the naive non-overlapping
substring count. -/
theorem pyStrCount_literal (s pat : List Char)
    (h : pat.all (fun c => !(isReMeta c)) = true) :
    pyStrCount s pat = some (strCount s pat) := by
  unfold pyStrCount
  rw [compileDotLit_literal pat h]
  dsimp only
  unfold reTokCount strCount
  by_cases hne : pat = []
  · subst hne
    simp
  · rw [if_neg (by simp [hne]), if_neg hne]
    unfold countOccList
    rw [reTokCountAux_lits pat hne s 0]

/-- C7 fails as stated: pandas `Series.str.count` compiles the search
phrase as a regular expression, so for a phrase containing metacharacters
the program's count is not the naive substring count the claim asserts for
every phrase.  Concretely, for phrase `"u.s."` (where the periods match any
character) and title `"tulsa!"` with empty description, the program counts
the regex match `ulsa` once, while the naive non-overlapping substring
count of `"u.s."` in `"tulsa!"` is 0. -/
theorem claimC7_counterexample :
    (addColumns (Frame.mk [⟨2023, 8, 3⟩] ["tulsa!"] [""] ["P"]) "u.s.").countCol
      = [some 1] ∧
    strCount (lowerL ("tulsa!").data) (lowerL ("u.s.").data)
      + strCount (lowerL ("").data) (lowerL ("u.s.").data) = 0 := by
  exact ⟨by decide, by decide⟩

/-- C7 as amended: for every record and every search phrase whose lowered
form contains no regular-expression metacharacter, the enriched
`search_phrase_count` equals the case-insensitive naive non-overlapping
substring occurrence count of the phrase in the title plus the same count
in the description (summed across the two fields, not deduplicated); in
particular, phrase `dollars` with title `dollars dollars` and empty
description yields count 2.  For phrases with metacharacters the program
counts regex matches instead (see the counterexample). -/
theorem claimC7 :
    (∀ (f : Frame) (phrase : String) (i : Nat) (t d : String),
      (lowerL phrase.data).all (fun c => !(isReMeta c)) = true →
      f.titleCol.get? i = some t → f.descCol.get? i = some d →
      (addColumns f phrase).countCol.get? i
        = some (some (strCount (lowerL t.data) (lowerL phrase.data)
            + strCount (lowerL d.data) (lowerL phrase.data)))) ∧
    (addColumns (Frame.mk [⟨2023, 8, 3⟩] ["dollars dollars"] [""] ["P"]) "dollars").countCol
      = [some 2] := by
  constructor
  · intro f phrase i t d hmeta h1 h2
    have hz := zipWith_get_some (fun a b => rowPhraseCount phrase a b)
      f.titleCol f.descCol i t d h1 h2
    have hrow : rowPhraseCount phrase t d
        = some (strCount (lowerL t.data) (lowerL phrase.data)
            + strCount (lowerL d.data) (lowerL phrase.data)) := by
      unfold rowPhraseCount
      rw [pyStrCount_literal _ _ hmeta, pyStrCount_literal _ _ hmeta]
    rw [← hrow]
    exact hz
  · decide

/-- Witness for C7 (amended) at a concrete row, with mixed case in both
the phrase and the fields and a metacharacter-free phrase. -/
theorem claimC7_witness :
    (addColumns (Frame.mk [⟨2023, 8, 3⟩] ["Dollars and dollars"] ["a dollarsdollars b"] ["P"])
        "Dollars").countCol.get? 0
      = some (some (strCount (lowerL ("Dollars and dollars").data) (lowerL ("Dollars").data)
          + strCount (lowerL ("a dollarsdollars b").data) (lowerL ("Dollars").data))) :=
  claimC7.1 (Frame.mk [⟨2023, 8, 3⟩] ["Dollars and dollars"] ["a dollarsdollars b"] ["P"])
    "Dollars" 0 "Dollars and dollars" "a dollarsdollars b" (by decide) rfl rfl

/-- C8: for every record the enriched `has_money` flag is the result of the
money-pattern search over the title and description joined by a single
space (a boolean existence check, not a count); and that search succeeds
exactly when the text contains a currency mention in the claim's sense —
a dollar-sign-prefixed number, or a number followed (directly or after a
single whitespace character) by the word `dollars` or `USD`. -/
theorem claimC8 :
    (∀ (f : Frame) (phrase : String) (i : Nat) (t d : String),
      f.titleCol.get? i = some t → f.descCol.get? i = some d →
      (addColumns f phrase).moneyCol.get? i
        = some (moneySearch (t.data ++ ' ' :: d.data))) ∧
    (∀ s : List Char, moneySearch s = true ↔ SpecCurrency s) := by
  constructor
  · intro f phrase i t d h1 h2
    exact zipWith_get_some (fun a b => rowMoney a b) f.titleCol f.descCol i t d h1 h2
  · exact moneySearch_iff_spec

/-- Witness for C8: the flag of a concrete row, and a currency mention
extracted from `cost $50` through the equivalence. -/
theorem claimC8_witness :
    (addColumns (Frame.mk [⟨2023, 8, 1⟩] ["Argentina wins"] ["cost $50"] ["P"])
        "argentina").moneyCol.get? 0
      = some (moneySearch (("Argentina wins").data ++ ' ' :: ("cost $50").data)) ∧
    SpecCurrency ("cost $50").data :=
  ⟨claimC8.1 (Frame.mk [⟨2023, 8, 1⟩] ["Argentina wins"] ["cost $50"] ["P"])
      "argentina" 0 "Argentina wins" "cost $50" rfl rfl,
   (claimC8.2 (("cost $50").data)).mp (by decide)⟩

/-- C9: `scrape` never raises to its caller — in this embedding its result
type `ScrapeResult` carries no exception and the function is total — the
browser session is released in all cases (`quitDone = true` for every
input), any exception of the body is converted to an error log line with
nothing written, and a run whose body completes writes what the body
produced without logging an error. -/
theorem claimC9 (env : ScrapeEnv) :
    (scrape env).quitDone = true ∧
    (∀ e, scrapeBody env = Except.error e →
      (scrape env).errorLogged = true ∧ (scrape env).written = none) ∧
    (∀ w, scrapeBody env = Except.ok w →
      (scrape env).errorLogged = false ∧ (scrape env).written = w) := by
  refine ⟨?_, ?_, ?_⟩
  · unfold scrape
    cases scrapeBody env with
    | ok w => rfl
    | error e => rfl
  · intro e he
    unfold scrape
    rw [he]
    exact ⟨rfl, rfl⟩
  · intro w hw
    unfold scrape
    rw [hw]
    exact ⟨rfl, rfl⟩

/-- Witness for C9: a run whose extraction fails (no result page ever
loads) still quits the driver, logs the failure, and writes nothing. -/
theorem claimC9_witness :
    (scrape (ScrapeEnv.mk [] 2 ⟨2023, 8, 15⟩ "argentina" false)).quitDone = true ∧
    (scrape (ScrapeEnv.mk [] 2 ⟨2023, 8, 15⟩ "argentina" false)).errorLogged = true ∧
    (scrape (ScrapeEnv.mk [] 2 ⟨2023, 8, 15⟩ "argentina" false)).written = none :=
  ⟨(claimC9 (ScrapeEnv.mk [] 2 ⟨2023, 8, 15⟩ "argentina" false)).1,
   ((claimC9 (ScrapeEnv.mk [] 2 ⟨2023, 8, 15⟩ "argentina" false)).2.1
      PyErr.typeErrorNoneFrame rfl).1,
   ((claimC9 (ScrapeEnv.mk [] 2 ⟨2023, 8, 15⟩ "argentina" false)).2.1
      PyErr.typeErrorNoneFrame rfl).2⟩

/-- C10: every record set the extraction step successfully returns is
well-formed — the four column lists always have equal length, because the
cutoff check and the early return happen before any of an entry's fields
are appended, and a run that raises mid-entry returns no frame at all. -/
theorem claimC10 (pages : List Page) (mb : Int) (today : Datetime) (f : Frame)
    (h : extractData pages mb today = some f) :
    f.dateCol.length = f.titleCol.length ∧
    f.dateCol.length = f.descCol.length ∧
    f.dateCol.length = f.picCol.length := by
  unfold extractData at h
  cases hcut : dateMin mb today with
  | none =>
    rw [hcut] at h
    exact Option.noConfusion h
  | some cutoff =>
    rw [hcut] at h
    dsimp only at h
    refine extractLoop_pres cutoff today
      (fun fr => fr.dateCol.length = fr.titleCol.length ∧
        fr.dateCol.length = fr.descCol.length ∧
        fr.dateCol.length = fr.picCol.length)
      ?_ 9 pages emptyFrame ?_ f h
    · intro st d t ds pic hst _
      obtain ⟨a, b, c⟩ := hst
      unfold pushRecord
      simp only [List.length_append, List.length_cons, List.length_nil]
      omega
    · exact ⟨rfl, rfl, rfl⟩

/-- Witness for C10: a concrete early-returned frame has all four columns
of length one. -/
theorem claimC10_witness :
    (Frame.mk [⟨2023, 8, 3⟩] ["T"] ["D"] ["P"]).dateCol.length
      = (Frame.mk [⟨2023, 8, 3⟩] ["T"] ["D"] ["P"]).titleCol.length ∧
    (Frame.mk [⟨2023, 8, 3⟩] ["T"] ["D"] ["P"]).dateCol.length
      = (Frame.mk [⟨2023, 8, 3⟩] ["T"] ["D"] ["P"]).descCol.length ∧
    (Frame.mk [⟨2023, 8, 3⟩] ["T"] ["D"] ["P"]).dateCol.length
      = (Frame.mk [⟨2023, 8, 3⟩] ["T"] ["D"] ["P"]).picCol.length :=
  claimC10
    [Page.mk true
      [Entry.mk (some "August 3, 2023") (some "T") (some "D") (some "P"),
       Entry.mk (some "January 1, 2023") (some "T2") (some "D2") (some "P2")] true]
    2 ⟨2023, 8, 15⟩ (Frame.mk [⟨2023, 8, 3⟩] ["T"] ["D"] ["P"]) (by decide)
